import Mathlib

/-!
Shallow embedding of src/crypto.js (class CryptoEngine) from the
NFC-de-scrambler repository.

Conventions:
* JavaScript strings are modelled as lists of UTF-16 code units, `List Nat`.
* JavaScript numbers holding integers are modelled as `Int`; wall-clock
  milliseconds (`Date.now()`) are nonnegative and modelled as `Nat`.
* `Date.now()` is passed as an explicit `now` parameter, held constant
  within one logical `encrypt`/`decrypt` call.
* Host primitives used by the source are modelled explicitly:
  `JSON.stringify` of the envelope object (`serializeEnvelope`),
  `JSON.parse` plus the field checks of `attemptDecrypt`
  (`parseEnvelope`, a recogniser of the canonical envelope serialization
  that yields `none` wherever `JSON.parse` throws on such inputs or the
  parsed value is not a canonical envelope), `btoa`/`atob` (canonical
  base64 with `=` padding; `btoa` fails on code units above 255 exactly
  as the browser primitive does), and `String.prototype.charCodeAt` /
  `String.fromCharCode` (code-unit access, 16-bit truncation).
* Loops of the source become fuel-based structural recursion; the fuel is
  always sufficient (proved where needed), so the definitions compute.
-/

set_option maxRecDepth 100000
set_option maxHeartbeats 2000000

namespace NFC

abbrev Str := List Nat

/-- Code units of an ASCII/Latin-1 Lean string literal. -/
def strLit (s : String) : Str := s.data.map Char.toNat

/-- JavaScript ToInt32: wrap an integer into the signed 32-bit range. -/
def toInt32 (n : Int) : Int :=
  if n % 4294967296 < 2147483648 then n % 4294967296 else n % 4294967296 - 4294967296

/-- One iteration of the rolling hash of CryptoEngine.simpleHash
(src/crypto.js line 55-56): `hash = ((hash << 5) - hash) + char` followed by
`hash = hash & hash`, i.e. a 32-bit shift then a ToInt32 truncation. -/
def hashStep (h : Int) (c : Nat) : Int := toInt32 (toInt32 (h * 32) - h + (c : Int))

/-- Lowercase hexadecimal digit, as produced by Number.prototype.toString(16). -/
def hexDigitChar (d : Nat) : Nat := if d < 10 then 48 + d else 87 + d

def natToHexAux : Nat → Nat → Str
  | 0, _ => []
  | f + 1, n => if n < 16 then [hexDigitChar n] else natToHexAux f (n / 16) ++ [hexDigitChar (n % 16)]

/-- `n.toString(16)` for a nonnegative integer: lowercase hex, no leading zeros. -/
def natToHex (n : Nat) : Str := natToHexAux (n + 1) n

/-- `.padStart(8, '0')` (src/crypto.js lines 51 and 60). -/
def padStart8 (s : Str) : Str := List.replicate (8 - s.length) 48 ++ s

/-- CryptoEngine.simpleHash (src/crypto.js lines 49-61). -/
def simpleHash (s : Str) : Str :=
  if s = [] then padStart8 (natToHex 0)
  else padStart8 (natToHex (s.foldl hashStep 0).natAbs)

def natToStringAux : Nat → Nat → Str
  | 0, _ => []
  | f + 1, n => if n < 10 then [48 + n] else natToStringAux f (n / 10) ++ [48 + n % 10]

/-- Decimal rendering of a nonnegative integer. -/
def natToString (n : Nat) : Str := natToStringAux (n + 1) n

/-- JavaScript Number-to-String for integers: decimal, `-` sign if negative. -/
def intToString (i : Int) : Str :=
  if i < 0 then 45 :: natToString i.natAbs else natToString i.toNat

/-- `this.timeWindow` (src/crypto.js line 5): 5 minutes in milliseconds. -/
def windowMs : Nat := 300000

/-- CryptoEngine.getTimeSeed (src/crypto.js lines 35-39):
`Math.floor(Date.now() / this.timeWindow)`. -/
def getTimeSeed (now : Nat) : Int := ((now / windowMs : Nat) : Int)

/-- JavaScript `x || d` for a nullable number `x`: falls back to `d` when `x`
is `null` or the (falsy) number `0`. -/
def jsOr (t : Option Int) (d : Int) : Int :=
  match t with
  | none => d
  | some v => if v = 0 then d else v

/-- CryptoEngine.generateTimeKey (src/crypto.js lines 42-46):
`seed = timeSeed || this.getTimeSeed(); simpleHash(masterKey + seed)`. -/
def generateTimeKey (mk : Str) (now : Nat) (timeSeed : Option Int) : Str :=
  simpleHash (mk ++ intToString (jsOr timeSeed (getTimeSeed now)))

/-- The compiled-in secret (src/crypto.js line 13). -/
def staticSecret : Str := strLit "NFC_AUTH_2025_SECURE"

/-- CryptoEngine.generateMasterKey (src/crypto.js lines 11-15), with the
device fingerprint as the opaque string input it is. -/
def generateMasterKey (fingerprint : Str) : Str := simpleHash (fingerprint ++ staticSecret)

def expandLoopAux : Nat → Str → Nat → Str → Nat → Str
  | 0, _, _, acc, _ => acc
  | f + 1, key, len, acc, counter =>
    if acc.length < len then
      expandLoopAux f key len (acc ++ simpleHash (key ++ natToString counter)) (counter + 1)
    else acc

/-- CryptoEngine.expandKey (src/crypto.js lines 79-91). The while loop is
run on fuel `len + 1`, which is sufficient because every iteration appends
the 8-character `simpleHash` output. -/
def expandKey (key : Str) (len : Nat) : Str :=
  (expandLoopAux (len + 1) key len key 0).take len

/-- CryptoEngine.xorCipher (src/crypto.js lines 64-76).
`String.fromCharCode` truncates to 16 bits, hence the `% 65536`. -/
def xorCipher (data key : Str) : Str :=
  let ek := expandKey key data.length
  (List.range data.length).map (fun i => (data.getD i 0 ^^^ ek.getD (i % ek.length) 0) % 65536)

/-- JSON.stringify escaping of a single code unit inside a string literal. -/
def jsonEscapeChar (c : Nat) : Str :=
  if c = 34 then [92, 34]
  else if c = 92 then [92, 92]
  else if c = 8 then [92, 98]
  else if c = 9 then [92, 116]
  else if c = 10 then [92, 110]
  else if c = 12 then [92, 102]
  else if c = 13 then [92, 114]
  else if c < 32 then [92, 117, 48, 48, hexDigitChar (c / 16), hexDigitChar (c % 16)]
  else [c]

def jsonEscape : Str → Str
  | [] => []
  | c :: rest => jsonEscapeChar c ++ jsonEscape rest

/-- JSON.stringify of a string value: quotes around the escaped body. -/
def jsonQuote (s : Str) : Str := 34 :: (jsonEscape s ++ [34])

/-- The envelope object built by CryptoEngine.encrypt
(src/crypto.js lines 101-106). -/
structure Envelope where
  msg : Str
  ts : Int
  seed : Int
  checksum : Str
deriving DecidableEq

/-- `JSON.stringify({ msg, ts, seed, checksum })`: fields in insertion
order, no whitespace, string fields quoted/escaped, integer fields in
decimal. -/
def serializeEnvelope (e : Envelope) : Str :=
  strLit "\x7b\"msg\":" ++ jsonQuote e.msg ++
  strLit ",\"ts\":" ++ intToString e.ts ++
  strLit ",\"seed\":" ++ intToString e.seed ++
  strLit ",\"checksum\":" ++ jsonQuote e.checksum ++
  strLit "\x7d"

/-- Value of a base64 alphabet index (0..63). -/
def base64EncChar (d : Nat) : Nat :=
  if d < 26 then 65 + d
  else if d < 52 then 97 + (d - 26)
  else if d < 62 then 48 + (d - 52)
  else if d = 62 then 43
  else 47

/-- Canonical base64 of a byte string, with `=` padding. -/
def base64Encode : Str → Str
  | [] => []
  | [a] => [base64EncChar (a / 4), base64EncChar (a % 4 * 16), 61, 61]
  | [a, b] => [base64EncChar (a / 4), base64EncChar (a % 4 * 16 + b / 16), base64EncChar (b % 16 * 4), 61]
  | a :: b :: c :: rest =>
    [base64EncChar (a / 4), base64EncChar (a % 4 * 16 + b / 16),
     base64EncChar (b % 16 * 4 + c / 64), base64EncChar (c % 64)] ++ base64Encode rest

/-- The browser `btoa`: fails (InvalidCharacterError) if any code unit of
the argument exceeds 255, otherwise base64-encodes the Latin-1 bytes. -/
def btoa (s : Str) : Option Str :=
  if s.all (fun c => decide (c < 256)) then some (base64Encode s) else none

def base64DecChar (c : Nat) : Option Nat :=
  if 65 ≤ c ∧ c ≤ 90 then some (c - 65)
  else if 97 ≤ c ∧ c ≤ 122 then some (26 + (c - 97))
  else if 48 ≤ c ∧ c ≤ 57 then some (52 + (c - 48))
  else if c = 43 then some 62
  else if c = 47 then some 63
  else none

/-- Decoder of canonical padded base64 (the shapes `btoa` emits);
anything else yields `none`, as the browser `atob` throws. -/
def base64Decode : Str → Option Str
  | [] => some []
  | c1 :: c2 :: c3 :: c4 :: rest =>
    if c3 = 61 ∧ c4 = 61 ∧ rest = [] then
      (base64DecChar c1).bind fun d1 =>
      (base64DecChar c2).bind fun d2 =>
      some [d1 * 4 + d2 / 16]
    else if c4 = 61 ∧ rest = [] then
      (base64DecChar c1).bind fun d1 =>
      (base64DecChar c2).bind fun d2 =>
      (base64DecChar c3).bind fun d3 =>
      some [d1 * 4 + d2 / 16, d2 % 16 * 16 + d3 / 4]
    else
      (base64DecChar c1).bind fun d1 =>
      (base64DecChar c2).bind fun d2 =>
      (base64DecChar c3).bind fun d3 =>
      (base64DecChar c4).bind fun d4 =>
      (base64Decode rest).map fun r =>
        (d1 * 4 + d2 / 16) :: (d2 % 16 * 16 + d3 / 4) :: (d3 % 4 * 64 + d4) :: r
  | _ => none

/-- The browser `atob`. -/
def atob (s : Str) : Option Str := base64Decode s

/-- Value of a hexadecimal digit code unit (JSON `\u` escapes). -/
def hexVal (c : Nat) : Option Nat :=
  if 48 ≤ c ∧ c ≤ 57 then some (c - 48)
  else if 97 ≤ c ∧ c ≤ 102 then some (c - 87)
  else if 65 ≤ c ∧ c ≤ 70 then some (c - 55)
  else none

/-- Parse the body of a JSON string literal (after the opening quote) up to
its closing quote, returning the decoded code units and the rest of the
input. Raw control characters are rejected, as in JSON.parse. -/
def parseJsonBody : Str → Option (Str × Str)
  | [] => none
  | c :: rest =>
    if c = 34 then some ([], rest)
    else if c = 92 then
      match rest with
      | [] => none
      | e :: rest2 =>
        if e = 34 then (parseJsonBody rest2).map (fun p => (34 :: p.1, p.2))
        else if e = 92 then (parseJsonBody rest2).map (fun p => (92 :: p.1, p.2))
        else if e = 47 then (parseJsonBody rest2).map (fun p => (47 :: p.1, p.2))
        else if e = 98 then (parseJsonBody rest2).map (fun p => (8 :: p.1, p.2))
        else if e = 116 then (parseJsonBody rest2).map (fun p => (9 :: p.1, p.2))
        else if e = 110 then (parseJsonBody rest2).map (fun p => (10 :: p.1, p.2))
        else if e = 102 then (parseJsonBody rest2).map (fun p => (12 :: p.1, p.2))
        else if e = 114 then (parseJsonBody rest2).map (fun p => (13 :: p.1, p.2))
        else if e = 117 then
          match rest2 with
          | h1 :: h2 :: h3 :: h4 :: rest3 =>
            (match hexVal h1, hexVal h2, hexVal h3, hexVal h4 with
             | some a, some b, some cc, some d =>
               (parseJsonBody rest3).map
                 (fun p => ((((a * 16 + b) * 16 + cc) * 16 + d) :: p.1, p.2))
             | _, _, _, _ => none)
          | _ => none
        else none
    else if c < 32 then none
    else (parseJsonBody rest).map (fun p => (c :: p.1, p.2))

def isDigitChar (c : Nat) : Bool := decide (48 ≤ c) && decide (c ≤ 57)

def parseNatNum (s : Str) : Option (Nat × Str) :=
  let ds := s.takeWhile isDigitChar
  if ds = [] then none
  else some (ds.foldl (fun a c => a * 10 + (c - 48)) 0, s.dropWhile isDigitChar)

def parseIntNum : Str → Option (Int × Str)
  | [] => none
  | c :: r =>
    if c = 45 then (parseNatNum r).map (fun p => (-(p.1 : Int), p.2))
    else (parseNatNum (c :: r)).map (fun p => ((p.1 : Int), p.2))

def dropLit (lit s : Str) : Option Str :=
  if s.take lit.length = lit then some (s.drop lit.length) else none

/-- Models `JSON.parse` composed with the structural expectations of
CryptoEngine.attemptDecrypt on the canonical envelope serialization: the
input must be exactly `serializeEnvelope` of some envelope. Any other
input yields `none`, as `JSON.parse` on it either throws (caught at
src/crypto.js line 183, yielding null) or yields a value that is not a
canonical envelope object. -/
def parseEnvelope (s : Str) : Option Envelope :=
  (dropLit (strLit "\x7b\"msg\":\"") s).bind fun s1 =>
  (parseJsonBody s1).bind fun p1 =>
  (dropLit (strLit ",\"ts\":") p1.2).bind fun s2 =>
  (parseIntNum s2).bind fun p2 =>
  (dropLit (strLit ",\"seed\":") p2.2).bind fun s3 =>
  (parseIntNum s3).bind fun p3 =>
  (dropLit (strLit ",\"checksum\":\"") p3.2).bind fun s4 =>
  (parseJsonBody s4).bind fun p4 =>
  (dropLit (strLit "\x7d") p4.2).bind fun s5 =>
  if s5 = [] then some ⟨p1.1, p2.1, p3.1, p4.1⟩ else none

instance {e a : Type} [DecidableEq e] [DecidableEq a] : DecidableEq (Except e a) := by
  intro x y
  cases x <;> cases y
  case error.error u v =>
    exact if h : u = v then .isTrue (by rw [h]) else .isFalse (fun hh => h (Except.error.inj hh))
  case ok.ok u v =>
    exact if h : u = v then .isTrue (by rw [h]) else .isFalse (fun hh => h (Except.ok.inj hh))
  case error.ok u v => exact .isFalse (fun hh => Except.noConfusion hh)
  case ok.error u v => exact .isFalse (fun hh => Except.noConfusion hh)

/-- The `"NFC_"` payload discriminator. -/
def strNFC : Str := strLit "NFC_"

/-- Error text of src/crypto.js line 125. -/
def fmtErrMsg : Str := strLit "Invalid encrypted format"

/-- Error text of src/crypto.js line 144. -/
def exhaustedMsg : Str := strLit "Decryption failed - invalid key or expired data"

/-- Modelled message of the exception the browser `atob` throws on
malformed base64. -/
def atobErrMsg : Str := strLit "InvalidCharacterError"

/-- The wrapping performed by the catch of CryptoEngine.decrypt
(src/crypto.js lines 149-151). -/
def wrapErr (m : Str) : Str := strLit "Decryption failed: " ++ m

/-- Modelled message of CryptoEngine.encrypt's catch (src/crypto.js lines
115-117) when `btoa` throws. -/
def encFailMsg : Str := strLit "Encryption failed: InvalidCharacterError"

/-- CryptoEngine.encrypt (src/crypto.js lines 94-118). `customTimeSeed` is
the optional second parameter (default null). -/
def encrypt (mk : Str) (now : Nat) (message : Str) (customTimeSeed : Option Int) :
    Except Str Str :=
  let timeSeed := jsOr customTimeSeed (getTimeSeed now)
  let timeKey := generateTimeKey mk now (some timeSeed)
  let env : Envelope := ⟨message, (now : Int), timeSeed, simpleHash (message ++ natToString now)⟩
  let encrypted := xorCipher (serializeEnvelope env) timeKey
  match btoa encrypted with
  | some b => .ok (strNFC ++ b)
  | none => .error encFailMsg

/-- CryptoEngine.attemptDecrypt (src/crypto.js lines 155-186). Note that
the `throw new Error('Message expired')` at line 178 is inside the
function's own try block, whose catch (line 183) returns null; hence the
expired case yields `none` like every other failure. -/
def attemptDecrypt (mk : Str) (now : Nat) (encrypted : Str) (timeSeed : Option Int) :
    Option Str :=
  let useTimeSeed := jsOr timeSeed (getTimeSeed now)
  let timeKey := generateTimeKey mk now (some useTimeSeed)
  let decrypted := xorCipher encrypted timeKey
  match parseEnvelope decrypted with
  | none => none
  | some env =>
    if env.msg = [] then none
    else if env.ts = 0 then none
    else if env.checksum = [] then none
    else if env.checksum ≠ simpleHash (env.msg ++ intToString env.ts) then none
    else if 86400000 < (now : Int) - env.ts then none
    else some env.msg

/-- CryptoEngine.decrypt (src/crypto.js lines 121-152): prefix check,
base64 decode, attempt at the current window, then windows -1, -2, -3,
with the outer catch wrapping every failure message. -/
def decrypt (mk : Str) (now : Nat) (encryptedData : Str) : Except Str Str :=
  if encryptedData.take 4 = strNFC then
    match atob (encryptedData.drop 4) with
    | none => .error (wrapErr atobErrMsg)
    | some encrypted =>
      match attemptDecrypt mk now encrypted none with
      | some v => .ok v
      | none =>
        match attemptDecrypt mk now encrypted (some (getTimeSeed now - 1)) with
        | some v => .ok v
        | none =>
          match attemptDecrypt mk now encrypted (some (getTimeSeed now - 2)) with
          | some v => .ok v
          | none =>
            match attemptDecrypt mk now encrypted (some (getTimeSeed now - 3)) with
            | some v => .ok v
            | none => .error (wrapErr exhaustedMsg)
  else .error (wrapErr fmtErrMsg)

example : strLit "NFC_" = [78, 70, 67, 95] := by decide
example : simpleHash [] = strLit "00000000" := by decide
example : simpleHash (strLit "A1") = strLit "00000810" := by decide
example : (expandKey (strLit "ab") 5).length = 5 := by decide


/-! Basic facts about the 32-bit arithmetic, hex rendering and hashing. -/

theorem toInt32_lb (n : Int) : -2147483648 ≤ toInt32 n := by
  unfold toInt32
  have h1 : 0 ≤ n % 4294967296 := Int.emod_nonneg n (by norm_num)
  split <;> omega

theorem toInt32_ub (n : Int) : toInt32 n < 2147483648 := by
  unfold toInt32
  have h2 : n % 4294967296 < 4294967296 := Int.emod_lt_of_pos n (by norm_num)
  split <;> omega

theorem toInt32_mod (n : Int) : toInt32 n % 4294967296 = n % 4294967296 := by
  unfold toInt32
  split <;> omega

theorem toInt32_congr (a b : Int) (h : a % 4294967296 = b % 4294967296) :
    toInt32 a = toInt32 b := by
  unfold toInt32
  rw [h]

/-- The net effect of one source hash iteration is `ToInt32 (31*h + c)`:
the overflow of the intermediate `hash << 5` is invisible modulo 2^32. -/
theorem hashStep_eq (h : Int) (c : Nat) : hashStep h c = toInt32 (31 * h + (c : Int)) := by
  unfold hashStep
  apply toInt32_congr
  have hm := toInt32_mod (h * 32)
  omega

theorem foldl_hashStep_bounds :
    ∀ (s : Str) (a : Int), s ≠ [] →
      -2147483648 ≤ s.foldl hashStep a ∧ s.foldl hashStep a < 2147483648 := by
  intro s
  induction s with
  | nil => intro a ha; exact absurd rfl ha
  | cons c rest ih =>
    intro a _
    cases rest with
    | nil =>
      simp only [List.foldl]
      exact ⟨toInt32_lb _, toInt32_ub _⟩
    | cons d r =>
      simpa only [List.foldl] using ih (hashStep a c) (by simp)

theorem natToHexAux_congr :
    ∀ (n f g : Nat), n < f → n < g → natToHexAux f n = natToHexAux g n := by
  intro n
  induction n using Nat.strong_induction_on with
  | _ n ih =>
    intro f g hf hg
    cases f with
    | zero => omega
    | succ f =>
      cases g with
      | zero => omega
      | succ g =>
        simp only [natToHexAux]
        split
        · rfl
        · have hlt : n / 16 < n := by omega
          have h1 := ih (n / 16) hlt f (n / 16 + 1) (by omega) (by omega)
          have h2 := ih (n / 16) hlt g (n / 16 + 1) (by omega) (by omega)
          rw [h1, h2]

theorem natToHex_eq (n : Nat) :
    natToHex n = if n < 16 then [hexDigitChar n]
                 else natToHex (n / 16) ++ [hexDigitChar (n % 16)] := by
  unfold natToHex
  show natToHexAux (n + 1) n = _
  rw [natToHexAux]
  split
  · rfl
  · rw [natToHexAux_congr (n / 16) n (n / 16 + 1) (by omega) (by omega)]

/-- Code units made by the lowercase-hex renderer: decimal digits or a-f. -/
def isHexLower (c : Nat) : Prop := (48 ≤ c ∧ c ≤ 57) ∨ (97 ≤ c ∧ c ≤ 102)

theorem hexDigitChar_isHexLower (d : Nat) (h : d < 16) : isHexLower (hexDigitChar d) := by
  unfold hexDigitChar isHexLower
  split <;> omega

theorem natToHex_chars :
    ∀ (n : Nat), ∀ c ∈ natToHex n, isHexLower c := by
  intro n
  induction n using Nat.strong_induction_on with
  | _ n ih =>
    intro c hc
    rw [natToHex_eq] at hc
    split at hc
    · simp only [List.mem_singleton] at hc
      subst hc
      exact hexDigitChar_isHexLower n (by omega)
    · rcases List.mem_append.mp hc with h | h
      · exact ih (n / 16) (by omega) c h
      · simp only [List.mem_singleton] at h
        subst h
        exact hexDigitChar_isHexLower (n % 16) (by omega)

theorem natToHex_len_le :
    ∀ (k n : Nat), 0 < k → n < 16 ^ k → (natToHex n).length ≤ k := by
  intro k
  induction k with
  | zero => omega
  | succ k ih =>
    intro n _ hn
    rw [natToHex_eq]
    split
    · simp
    · rename_i hge
      have hk : 0 < k := by
        by_contra hk0
        have : k = 0 := by omega
        subst this
        simp at hn
        omega
      have hdiv : n / 16 < 16 ^ k := by
        have : n < 16 ^ k * 16 := by
          calc n < 16 ^ (k + 1) := hn
          _ = 16 ^ k * 16 := by ring
        omega
      have := ih (n / 16) hk hdiv
      simp only [List.length_append, List.length_singleton]
      omega

theorem padStart8_length (s : Str) (h : s.length ≤ 8) : (padStart8 s).length = 8 := by
  simp only [padStart8, List.length_append, List.length_replicate]
  omega

theorem padStart8_chars (s : Str) :
    ∀ c ∈ padStart8 s, c = 48 ∨ c ∈ s := by
  intro c hc
  rcases List.mem_append.mp hc with h | h
  · exact Or.inl (List.eq_of_mem_replicate h)
  · exact Or.inr h

theorem simpleHash_length (s : Str) : (simpleHash s).length = 8 := by
  unfold simpleHash
  split
  · decide
  · rename_i hne
    apply padStart8_length
    apply natToHex_len_le 8 _ (by norm_num)
    have hb := foldl_hashStep_bounds s 0 hne
    have : (s.foldl hashStep 0).natAbs ≤ 2147483648 := by omega
    calc (s.foldl hashStep 0).natAbs ≤ 2147483648 := this
    _ < 16 ^ 8 := by norm_num

theorem simpleHash_ne_nil (s : Str) : simpleHash s ≠ [] := by
  intro h
  have := simpleHash_length s
  rw [h] at this
  simp at this

theorem simpleHash_chars (s : Str) : ∀ c ∈ simpleHash s, isHexLower c := by
  intro c hc
  unfold simpleHash at hc
  split at hc <;>
  · rcases padStart8_chars _ c hc with h | h
    · subst h; left; omega
    · exact natToHex_chars _ c h

theorem isHexLower_lt128 (c : Nat) (h : isHexLower c) : c < 128 := by
  rcases h with h | h <;> omega

theorem simpleHash_lt128 (s : Str) : ∀ c ∈ simpleHash s, c < 128 :=
  fun c hc => isHexLower_lt128 c (simpleHash_chars s c hc)

theorem natToStringAux_congr :
    ∀ (n f g : Nat), n < f → n < g → natToStringAux f n = natToStringAux g n := by
  intro n
  induction n using Nat.strong_induction_on with
  | _ n ih =>
    intro f g hf hg
    cases f with
    | zero => omega
    | succ f =>
      cases g with
      | zero => omega
      | succ g =>
        simp only [natToStringAux]
        split
        · rfl
        · have hlt : n / 10 < n := by omega
          have h1 := ih (n / 10) hlt f (n / 10 + 1) (by omega) (by omega)
          have h2 := ih (n / 10) hlt g (n / 10 + 1) (by omega) (by omega)
          rw [h1, h2]

theorem natToString_eq (n : Nat) :
    natToString n = if n < 10 then [48 + n]
                    else natToString (n / 10) ++ [48 + n % 10] := by
  unfold natToString
  show natToStringAux (n + 1) n = _
  rw [natToStringAux]
  split
  · rfl
  · rw [natToStringAux_congr (n / 10) n (n / 10 + 1) (by omega) (by omega)]

theorem natToString_chars :
    ∀ (n : Nat), ∀ c ∈ natToString n, 48 ≤ c ∧ c ≤ 57 := by
  intro n
  induction n using Nat.strong_induction_on with
  | _ n ih =>
    intro c hc
    rw [natToString_eq] at hc
    split at hc
    · simp only [List.mem_singleton] at hc
      omega
    · rcases List.mem_append.mp hc with h | h
      · exact ih (n / 10) (by omega) c h
      · simp only [List.mem_singleton] at h
        omega

theorem intToString_ofNat (n : Nat) : intToString (n : Int) = natToString n := by
  unfold intToString
  rw [if_neg (by omega)]
  simp

theorem intToString_chars (i : Int) :
    ∀ c ∈ intToString i, c = 45 ∨ (48 ≤ c ∧ c ≤ 57) := by
  intro c hc
  unfold intToString at hc
  split at hc
  · rcases List.mem_cons.mp hc with h | h
    · exact Or.inl h
    · exact Or.inr (natToString_chars _ c h)
  · exact Or.inr (natToString_chars _ c hc)

theorem intToString_lt128 (i : Int) : ∀ c ∈ intToString i, c < 128 := by
  intro c hc
  rcases intToString_chars i c hc with h | h <;> omega

theorem jsOr_none (d : Int) : jsOr none d = d := rfl

theorem jsOr_some_ne (v d : Int) (h : v ≠ 0) : jsOr (some v) d = v := by
  simp [jsOr, h]

theorem jsOr_some_self (d : Int) : jsOr (some d) d = d := by
  simp [jsOr]

/-! Facts about key expansion and the XOR transform. -/

theorem expandLoopAux_len :
    ∀ (f : Nat) (key : Str) (len : Nat) (acc : Str) (ctr : Nat),
      len ≤ acc.length + f → len ≤ (expandLoopAux f key len acc ctr).length := by
  intro f
  induction f with
  | zero =>
    intro key len acc ctr h
    simpa [expandLoopAux] using h
  | succ f ih =>
    intro key len acc ctr h
    rw [expandLoopAux]
    split
    · apply ih
      have h8 := simpleHash_length (key ++ natToString ctr)
      simp only [List.length_append, h8]
      omega
    · omega

theorem expandKey_length (key : Str) (len : Nat) : (expandKey key len).length = len := by
  unfold expandKey
  rw [List.length_take]
  have := expandLoopAux_len (len + 1) key len key 0 (by omega)
  omega

theorem expandLoopAux_chars :
    ∀ (f : Nat) (key : Str) (len : Nat) (acc : Str) (ctr : Nat),
      (∀ c ∈ acc, c ∈ key ∨ isHexLower c) →
      ∀ c ∈ expandLoopAux f key len acc ctr, c ∈ key ∨ isHexLower c := by
  intro f
  induction f with
  | zero =>
    intro key len acc ctr hacc
    simpa [expandLoopAux] using hacc
  | succ f ih =>
    intro key len acc ctr hacc
    rw [expandLoopAux]
    split
    · apply ih
      intro c hc
      rcases List.mem_append.mp hc with h | h
      · exact hacc c h
      · exact Or.inr (simpleHash_chars _ c h)
    · exact hacc

theorem expandKey_chars (key : Str) (len : Nat) :
    ∀ c ∈ expandKey key len, c ∈ key ∨ isHexLower c := by
  intro c hc
  have hm := List.mem_of_mem_take hc
  exact expandLoopAux_chars (len + 1) key len key 0 (fun c h => Or.inl h) c hm

theorem xorCipher_length (d k : Str) : (xorCipher d k).length = d.length := by
  simp [xorCipher]

theorem xorCipher_eq_zipWith (d k : Str) :
    xorCipher d k =
      List.zipWith (fun a b => (a ^^^ b) % 65536) d (expandKey k d.length) := by
  have hlen : (expandKey k d.length).length = d.length := expandKey_length k d.length
  apply List.ext_getElem
  · simp [xorCipher, hlen]
  · intro i h1 h2
    have hid : i < d.length := by
      simpa [xorCipher] using h1
    simp only [xorCipher, List.getElem_map, List.getElem_range, List.getElem_zipWith]
    rw [hlen, Nat.mod_eq_of_lt hid]
    rw [List.getD_eq_getElem d 0 hid, List.getD_eq_getElem _ 0 (by omega)]

theorem zipWith_xor_cancel :
    ∀ (d e : List Nat), e.length = d.length →
      (∀ c ∈ d, c < 65536) → (∀ c ∈ e, c < 65536) →
      List.zipWith (fun a b => (a ^^^ b) % 65536)
        (List.zipWith (fun a b => (a ^^^ b) % 65536) d e) e = d := by
  intro d
  induction d with
  | nil => intro e _ _ _; simp
  | cons a d ih =>
    intro e hlen hd he
    cases e with
    | nil => simp at hlen
    | cons b e =>
      simp only [List.zipWith_cons_cons, List.cons.injEq]
      constructor
      · have ha : a < 65536 := hd a (by simp)
        have hb : b < 65536 := he b (by simp)
        have hxor : a ^^^ b < 65536 := by
          have : a ^^^ b < 2 ^ 16 := Nat.xor_lt_two_pow (by norm_num [ha]) (by norm_num [hb])
          simpa using this
        rw [Nat.mod_eq_of_lt hxor, Nat.xor_assoc, Nat.xor_self, Nat.xor_zero,
            Nat.mod_eq_of_lt ha]
      · apply ih e (by simpa using hlen)
        · intro c hc; exact hd c (by simp [hc])
        · intro c hc; exact he c (by simp [hc])

theorem xorCipher_involution (d k : Str)
    (hd : ∀ c ∈ d, c < 65536) (hk : ∀ c ∈ k, c < 65536) :
    xorCipher (xorCipher d k) k = d := by
  have hlen : (xorCipher d k).length = d.length := xorCipher_length d k
  have hek : ∀ c ∈ expandKey k d.length, c < 65536 := by
    intro c hc
    rcases expandKey_chars k d.length c hc with h | h
    · exact hk c h
    · have := isHexLower_lt128 c h; omega
  rw [xorCipher_eq_zipWith (xorCipher d k) k, hlen, xorCipher_eq_zipWith d k]
  apply zipWith_xor_cancel d (expandKey k d.length) (expandKey_length k d.length) hd hek

theorem xorCipher_lt65536 (d k : Str) : ∀ c ∈ xorCipher d k, c < 65536 := by
  intro c hc
  simp only [xorCipher, List.mem_map] at hc
  obtain ⟨i, _, hi⟩ := hc
  omega

theorem zipWith_xor_lt256 :
    ∀ (d e : List Nat), (∀ a ∈ d, a < 256) → (∀ b ∈ e, b < 128) →
      ∀ c ∈ List.zipWith (fun a b => (a ^^^ b) % 65536) d e, c < 256 := by
  intro d
  induction d with
  | nil => intro e _ _ c hc; simp at hc
  | cons a d ih =>
    intro e hd he c hc
    cases e with
    | nil => simp at hc
    | cons b e =>
      simp only [List.zipWith_cons_cons, List.mem_cons] at hc
      rcases hc with h | h
      · subst h
        have ha : a < 256 := hd a (by simp)
        have hb : b < 256 := by have := he b (by simp); omega
        have hxor : a ^^^ b < 256 := by
          have : a ^^^ b < 2 ^ 8 := Nat.xor_lt_two_pow (by norm_num [ha]) (by norm_num [hb])
          simpa using this
        omega
      · apply ih e _ _ c h
        · intro x hx; exact hd x (by simp [hx])
        · intro x hx; exact he x (by simp [hx])

theorem xorCipher_lt256 (d k : Str)
    (hd : ∀ c ∈ d, c < 256) (hk : ∀ c ∈ k, c < 128) :
    ∀ c ∈ xorCipher d k, c < 256 := by
  intro c hc
  rw [xorCipher_eq_zipWith] at hc
  apply zipWith_xor_lt256 d (expandKey k d.length) hd _ c hc
  intro b hb
  rcases expandKey_chars k d.length b hb with h | h
  · exact hk b h
  · exact isHexLower_lt128 b h

/-! Base64 round trip. -/

theorem base64DecChar_encChar : ∀ d < 64, base64DecChar (base64EncChar d) = some d := by
  decide

theorem base64EncChar_ne61 : ∀ d < 64, base64EncChar d ≠ 61 := by
  decide

theorem base64Decode_encode :
    ∀ (s : Str), (∀ c ∈ s, c < 256) → base64Decode (base64Encode s) = some s := by
  have H : ∀ (n : Nat) (s : Str), s.length ≤ n → (∀ c ∈ s, c < 256) →
      base64Decode (base64Encode s) = some s := by
    intro n
    induction n with
    | zero =>
      intro s hlen _
      have : s = [] := List.eq_nil_of_length_eq_zero (by omega)
      subst this
      rfl
    | succ n ih =>
      intro s hlen hc
      cases s with
      | nil => rfl
      | cons a s1 =>
        have ha : a < 256 := hc a (by simp)
        cases s1 with
        | nil =>
          rw [show base64Encode [a] =
                [base64EncChar (a / 4), base64EncChar (a % 4 * 16), 61, 61] from rfl]
          rw [base64Decode]
          rw [if_pos ⟨rfl, rfl, rfl⟩]
          rw [base64DecChar_encChar (a / 4) (by omega),
              base64DecChar_encChar (a % 4 * 16) (by omega)]
          simp only [Option.some_bind, Option.some.injEq, List.cons.injEq, and_true]
          omega
        | cons b s2 =>
          have hb : b < 256 := hc b (by simp)
          cases s2 with
          | nil =>
            rw [show base64Encode [a, b] =
                  [base64EncChar (a / 4), base64EncChar (a % 4 * 16 + b / 16),
                   base64EncChar (b % 16 * 4), 61] from rfl]
            rw [base64Decode]
            rw [if_neg (by
              intro hcontra
              exact base64EncChar_ne61 (b % 16 * 4) (by omega) hcontra.1)]
            rw [if_pos ⟨rfl, rfl⟩]
            rw [base64DecChar_encChar (a / 4) (by omega),
                base64DecChar_encChar (a % 4 * 16 + b / 16) (by omega),
                base64DecChar_encChar (b % 16 * 4) (by omega)]
            simp only [Option.some_bind, Option.some.injEq, List.cons.injEq, and_true]
            constructor <;> omega
          | cons c s3 =>
            have hcc : c < 256 := hc c (by simp)
            rw [show base64Encode (a :: b :: c :: s3) =
                  [base64EncChar (a / 4), base64EncChar (a % 4 * 16 + b / 16),
                   base64EncChar (b % 16 * 4 + c / 64), base64EncChar (c % 64)] ++
                  base64Encode s3 from rfl]
            simp only [List.cons_append, List.nil_append]
            rw [base64Decode]
            rw [if_neg (by
              intro hcontra
              exact base64EncChar_ne61 (b % 16 * 4 + c / 64) (by omega) hcontra.1)]
            rw [if_neg (by
              intro hcontra
              exact base64EncChar_ne61 (c % 64) (by omega) hcontra.1)]
            rw [base64DecChar_encChar (a / 4) (by omega),
                base64DecChar_encChar (a % 4 * 16 + b / 16) (by omega),
                base64DecChar_encChar (b % 16 * 4 + c / 64) (by omega),
                base64DecChar_encChar (c % 64) (by omega)]
            rw [ih s3 (by simp at hlen; omega) (fun x hx => hc x (by simp [hx]))]
            simp only [Option.some_bind, Option.map_some', Option.some.injEq, List.cons.injEq,
              and_true]
            refine ⟨by omega, by omega, by omega⟩
  intro s hc
  exact H s.length s (le_refl _) hc

theorem atob_btoa (s : Str) (h : ∀ c ∈ s, c < 256) :
    atob (base64Encode s) = some s := base64Decode_encode s h

theorem btoa_of_lt256 (s : Str) (h : ∀ c ∈ s, c < 256) :
    btoa s = some (base64Encode s) := by
  unfold btoa
  rw [if_pos]
  rw [List.all_eq_true]
  intro c hc
  exact decide_eq_true (h c hc)

/-! JSON escape/parse round trip on the canonical envelope serialization. -/

theorem hexVal_hexDigitChar : ∀ d < 16, hexVal (hexDigitChar d) = some d := by
  decide

theorem parseJsonBody_escape (m : Str) :
    ∀ (rest : Str), parseJsonBody (jsonEscape m ++ 34 :: rest) = some (m, rest) := by
  induction m with
  | nil =>
    intro rest
    show parseJsonBody (34 :: rest) = some ([], rest)
    conv_lhs => rw [parseJsonBody.eq_def]
    simp
  | cons c m ih =>
    intro rest
    show parseJsonBody ((jsonEscapeChar c ++ jsonEscape m) ++ 34 :: rest) = _
    rw [List.append_assoc]
    by_cases h1 : c = 34
    · subst h1
      rw [show jsonEscapeChar 34 ++ (jsonEscape m ++ 34 :: rest) =
            92 :: 34 :: (jsonEscape m ++ 34 :: rest) from rfl]
      conv_lhs => rw [parseJsonBody.eq_def]
      simp [ih rest]
    · by_cases h2 : c = 92
      · subst h2
        rw [show jsonEscapeChar 92 ++ (jsonEscape m ++ 34 :: rest) =
              92 :: 92 :: (jsonEscape m ++ 34 :: rest) from rfl]
        conv_lhs => rw [parseJsonBody.eq_def]
        simp [ih rest]
      · by_cases h3 : c = 8
        · subst h3
          rw [show jsonEscapeChar 8 ++ (jsonEscape m ++ 34 :: rest) =
                92 :: 98 :: (jsonEscape m ++ 34 :: rest) from rfl]
          conv_lhs => rw [parseJsonBody.eq_def]
          simp [ih rest]
        · by_cases h4 : c = 9
          · subst h4
            rw [show jsonEscapeChar 9 ++ (jsonEscape m ++ 34 :: rest) =
                  92 :: 116 :: (jsonEscape m ++ 34 :: rest) from rfl]
            conv_lhs => rw [parseJsonBody.eq_def]
            simp [ih rest]
          · by_cases h5 : c = 10
            · subst h5
              rw [show jsonEscapeChar 10 ++ (jsonEscape m ++ 34 :: rest) =
                    92 :: 110 :: (jsonEscape m ++ 34 :: rest) from rfl]
              conv_lhs => rw [parseJsonBody.eq_def]
              simp [ih rest]
            · by_cases h6 : c = 12
              · subst h6
                rw [show jsonEscapeChar 12 ++ (jsonEscape m ++ 34 :: rest) =
                      92 :: 102 :: (jsonEscape m ++ 34 :: rest) from rfl]
                conv_lhs => rw [parseJsonBody.eq_def]
                simp [ih rest]
              · by_cases h7 : c = 13
                · subst h7
                  rw [show jsonEscapeChar 13 ++ (jsonEscape m ++ 34 :: rest) =
                        92 :: 114 :: (jsonEscape m ++ 34 :: rest) from rfl]
                  conv_lhs => rw [parseJsonBody.eq_def]
                  simp [ih rest]
                · by_cases hlt : c < 32
                  · have hesc : jsonEscapeChar c =
                        [92, 117, 48, 48, hexDigitChar (c / 16), hexDigitChar (c % 16)] := by
                      unfold jsonEscapeChar
                      rw [if_neg h1, if_neg h2, if_neg h3, if_neg h4, if_neg h5, if_neg h6,
                          if_neg h7, if_pos hlt]
                    rw [hesc]
                    rw [show ([92, 117, 48, 48, hexDigitChar (c / 16), hexDigitChar (c % 16)] : Str)
                          ++ (jsonEscape m ++ 34 :: rest) =
                          92 :: 117 :: 48 :: 48 :: hexDigitChar (c / 16) :: hexDigitChar (c % 16)
                          :: (jsonEscape m ++ 34 :: rest) from by simp]
                    conv_lhs => rw [parseJsonBody.eq_def]
                    have hx1 : hexVal (hexDigitChar (c / 16)) = some (c / 16) :=
                      hexVal_hexDigitChar (c / 16) (by omega)
                    have hx2 : hexVal (hexDigitChar (c % 16)) = some (c % 16) :=
                      hexVal_hexDigitChar (c % 16) (by omega)
                    have hx48 : hexVal 48 = some 0 := by decide
                    simp only [hx1, hx2, hx48, ih rest]
                    norm_num
                    omega
                  · have hesc : jsonEscapeChar c = [c] := by
                      unfold jsonEscapeChar
                      rw [if_neg h1, if_neg h2, if_neg h3, if_neg h4, if_neg h5, if_neg h6,
                          if_neg h7, if_neg hlt]
                    rw [hesc]
                    rw [show ([c] : Str) ++ (jsonEscape m ++ 34 :: rest) =
                          c :: (jsonEscape m ++ 34 :: rest) from by simp]
                    conv_lhs => rw [parseJsonBody.eq_def]
                    simp only []
                    rw [if_neg h1, if_neg h2, if_neg hlt, ih rest]
                    rfl

theorem natToString_ne_nil (n : Nat) : natToString n ≠ [] := by
  rw [natToString_eq]
  split <;> simp

theorem natToString_val (n : Nat) :
    (natToString n).foldl (fun a c => a * 10 + (c - 48)) 0 = n := by
  induction n using Nat.strong_induction_on with
  | _ n ih =>
    rw [natToString_eq]
    split
    · simp only [List.foldl_cons, List.foldl_nil]
      omega
    · rw [List.foldl_append, ih (n / 10) (by omega)]
      simp only [List.foldl_cons, List.foldl_nil]
      omega

theorem takeWhile_digits (l r : Str) (hl : ∀ c ∈ l, isDigitChar c = true)
    (hr : ∀ c t, r = c :: t → isDigitChar c = false) :
    (l ++ r).takeWhile isDigitChar = l ∧ (l ++ r).dropWhile isDigitChar = r := by
  induction l with
  | nil =>
    simp only [List.nil_append]
    cases r with
    | nil => simp
    | cons c t =>
      rw [List.takeWhile_cons, List.dropWhile_cons, hr c t rfl]
      simp
  | cons a l ih =>
    have ha : isDigitChar a = true := hl a (by simp)
    have ihh := ih (fun c hc => hl c (by simp [hc]))
    simp only [List.cons_append, List.takeWhile_cons, List.dropWhile_cons, ha]
    simp [ihh.1, ihh.2]

theorem parseNat_natToString (n : Nat) (r : Str)
    (hr : ∀ c t, r = c :: t → isDigitChar c = false) :
    parseNatNum (natToString n ++ r) = some (n, r) := by
  have hl : ∀ c ∈ natToString n, isDigitChar c = true := by
    intro c hc
    have := natToString_chars n c hc
    simp [isDigitChar]
    omega
  obtain ⟨ht, hd⟩ := takeWhile_digits (natToString n) r hl hr
  simp only [parseNatNum, ht, hd, if_neg (natToString_ne_nil n), natToString_val]

theorem parseInt_intToString (i : Int) (r : Str)
    (hr : ∀ c t, r = c :: t → isDigitChar c = false) :
    parseIntNum (intToString i ++ r) = some (i, r) := by
  unfold intToString
  split
  · rename_i hneg
    rw [List.cons_append]
    conv_lhs => rw [parseIntNum.eq_def]
    simp only []
    simp only [if_true]
    rw [parseNat_natToString i.natAbs r hr]
    simp only [Option.map_some', Option.some.injEq, Prod.mk.injEq, and_true]
    omega
  · rename_i hpos
    have hne := natToString_ne_nil i.toNat
    obtain ⟨c, t, hns⟩ : ∃ c t, natToString i.toNat = c :: t := by
      cases hh : natToString i.toNat with
      | nil => exact absurd hh hne
      | cons c t => exact ⟨c, t, rfl⟩
    have hcd := natToString_chars i.toNat c (by rw [hns]; simp)
    have h45 : ¬ c = 45 := by omega
    rw [hns, List.cons_append]
    conv_lhs => rw [parseIntNum.eq_def]
    simp only []
    rw [if_neg h45, ← List.cons_append, ← hns, parseNat_natToString i.toNat r hr]
    simp only [Option.map_some', Option.some.injEq, Prod.mk.injEq, and_true]
    omega

theorem dropLit_append (l r : Str) : dropLit l (l ++ r) = some r := by
  unfold dropLit
  rw [if_pos (List.take_left l r), List.drop_left]

/-! Parse of the canonical envelope serialization. -/

theorem serialize_shape (env : Envelope) :
    serializeEnvelope env =
      strLit "\x7b\"msg\":\"" ++ (jsonEscape env.msg ++ (34 ::
        (strLit ",\"ts\":" ++ (intToString env.ts ++
          (strLit ",\"seed\":" ++ (intToString env.seed ++
            (strLit ",\"checksum\":\"" ++
              (jsonEscape env.checksum ++ (34 :: strLit "\x7d"))))))))) := by
  rw [serializeEnvelope, jsonQuote, jsonQuote]
  have e1 : strLit "\x7b\"msg\":\"" = strLit "\x7b\"msg\":" ++ [34] := by decide
  have e2 : strLit ",\"checksum\":\"" = strLit ",\"checksum\":" ++ [34] := by decide
  rw [e1, e2]
  simp [List.append_assoc]

theorem notDigit_comma (x : Str) (lit : Str) (h44 : lit = 44 :: lit.tail) :
    ∀ c t, lit ++ x = c :: t → isDigitChar c = false := by
  intro c t h
  rw [h44, List.cons_append] at h
  have : c = 44 := (List.cons.injEq _ _ _ _ ▸ h).1.symm
  subst this
  decide

theorem dropLit_self (l : Str) : dropLit l l = some [] := by
  have h := dropLit_append l []
  rwa [List.append_nil] at h

theorem parseEnvelope_serialize (env : Envelope) :
    parseEnvelope (serializeEnvelope env) = some env := by
  obtain ⟨msg, ts, seed, ck⟩ := env
  rw [serialize_shape]
  unfold parseEnvelope
  rw [dropLit_append]
  simp only [Option.some_bind]
  rw [parseJsonBody_escape]
  simp only [Option.some_bind]
  rw [dropLit_append]
  simp only [Option.some_bind]
  rw [parseInt_intToString ts _ (notDigit_comma _ (strLit ",\"seed\":") (by decide))]
  simp only [Option.some_bind]
  rw [dropLit_append]
  simp only [Option.some_bind]
  rw [parseInt_intToString seed _ (notDigit_comma _ (strLit ",\"checksum\":\"") (by decide))]
  simp only [Option.some_bind]
  rw [dropLit_append]
  simp only [Option.some_bind]
  rw [parseJsonBody_escape]
  simp only [Option.some_bind]
  rw [dropLit_self]
  simp only [Option.some_bind, if_true]

/-! Character bounds for the serialized envelope, and engine-level helpers. -/

theorem hexDigitChar_lt128 (d : Nat) (h : d < 16) : hexDigitChar d < 128 := by
  unfold hexDigitChar
  split <;> omega

theorem jsonEscapeChar_lt256 (c : Nat) (h : c < 256) : ∀ x ∈ jsonEscapeChar c, x < 256 := by
  intro x hx
  unfold jsonEscapeChar at hx
  split_ifs at hx with h1 h2 h3 h4 h5 h6 h7 h8
  · simp at hx; omega
  · simp at hx; omega
  · simp at hx; omega
  · simp at hx; omega
  · simp at hx; omega
  · simp at hx; omega
  · simp at hx; omega
  · simp at hx
    have hd1 := hexDigitChar_lt128 (c / 16) (by omega)
    have hd2 := hexDigitChar_lt128 (c % 16) (by omega)
    rcases hx with h | h | h | h | h | h <;> omega
  · simp at hx; omega

theorem jsonEscape_lt256 (s : Str) (h : ∀ c ∈ s, c < 256) :
    ∀ x ∈ jsonEscape s, x < 256 := by
  induction s with
  | nil => intro x hx; simp [jsonEscape] at hx
  | cons c s ih =>
    intro x hx
    simp only [jsonEscape, List.mem_append] at hx
    rcases hx with hx | hx
    · exact jsonEscapeChar_lt256 c (h c (by simp)) x hx
    · exact ih (fun y hy => h y (by simp [hy])) x hx

theorem jsonQuote_lt256 (s : Str) (h : ∀ c ∈ s, c < 256) :
    ∀ x ∈ jsonQuote s, x < 256 := by
  intro x hx
  simp only [jsonQuote] at hx
  rcases List.mem_cons.mp hx with h1 | h1
  · omega
  · rcases List.mem_append.mp h1 with h2 | h2
    · exact jsonEscape_lt256 s h x h2
    · have h3 : x = 34 := by simpa using h2
      omega

theorem intToString_lt256 (i : Int) : ∀ c ∈ intToString i, c < 256 := by
  intro c hc
  have := intToString_lt128 i c hc
  omega

theorem serialize_chars (env : Envelope)
    (hmsg : ∀ c ∈ env.msg, c < 256) (hck : ∀ c ∈ env.checksum, c < 256) :
    ∀ c ∈ serializeEnvelope env, c < 256 := by
  intro c hc
  simp only [serializeEnvelope, List.mem_append] at hc
  rcases hc with ((((((((h | h) | h) | h) | h) | h) | h) | h) | h)
  · revert h; revert c; decide
  · exact jsonQuote_lt256 env.msg hmsg c h
  · revert h; revert c; decide
  · exact intToString_lt256 env.ts c h
  · revert h; revert c; decide
  · exact intToString_lt256 env.seed c h
  · revert h; revert c; decide
  · exact jsonQuote_lt256 env.checksum hck c h
  · revert h; revert c; decide

theorem simpleHash_lt256 (s : Str) : ∀ c ∈ simpleHash s, c < 256 := by
  intro c hc
  have := simpleHash_lt128 s c hc
  omega

/-- Successful path of `encrypt`: for Latin-1 messages `btoa` succeeds and
the payload is the `NFC_`-prefixed base64 of the XOR-transformed envelope. -/
theorem encrypt_ok (mk : Str) (now : Nat) (m : Str) (cts : Option Int)
    (hc : ∀ c ∈ m, c < 256) :
    encrypt mk now m cts =
      .ok (strNFC ++ base64Encode (xorCipher
        (serializeEnvelope ⟨m, (now : Int), jsOr cts (getTimeSeed now),
          simpleHash (m ++ natToString now)⟩)
        (generateTimeKey mk now (some (jsOr cts (getTimeSeed now)))))) := by
  simp only [encrypt]
  have hser := serialize_chars
    ⟨m, (now : Int), jsOr cts (getTimeSeed now), simpleHash (m ++ natToString now)⟩
    hc (simpleHash_lt256 _)
  have hkey : ∀ c ∈ generateTimeKey mk now (some (jsOr cts (getTimeSeed now))), c < 128 :=
    simpleHash_lt128 _
  have henc := xorCipher_lt256 _ _ hser hkey
  rw [btoa_of_lt256 _ henc]

/-- Successful path of `attemptDecrypt` on a payload XOR-encrypted with the
very key this attempt derives: fresh, non-empty Latin-1 message decrypts. -/
theorem attempt_ok (mk : Str) (now1 : Nat) (m : Str) (ts0 : Nat) (sd : Int)
    (seedArg : Option Int)
    (hm : m ≠ []) (hc : ∀ c ∈ m, c < 256) (hts : 1 ≤ ts0)
    (hage : (now1 : Int) - (ts0 : Int) ≤ 86400000) :
    attemptDecrypt mk now1
      (xorCipher (serializeEnvelope ⟨m, (ts0 : Int), sd, simpleHash (m ++ natToString ts0)⟩)
        (generateTimeKey mk now1 (some (jsOr seedArg (getTimeSeed now1))))) seedArg
      = some m := by
  simp only [attemptDecrypt]
  have hser := serialize_chars ⟨m, (ts0 : Int), sd, simpleHash (m ++ natToString ts0)⟩
    hc (simpleHash_lt256 _)
  have hser16 : ∀ c ∈ serializeEnvelope ⟨m, (ts0 : Int), sd, simpleHash (m ++ natToString ts0)⟩,
      c < 65536 := by
    intro c hcc; have := hser c hcc; omega
  have hkey16 : ∀ c ∈ generateTimeKey mk now1 (some (jsOr seedArg (getTimeSeed now1))),
      c < 65536 := by
    intro c hcc; have := simpleHash_lt128 _ c hcc; omega
  rw [xorCipher_involution _ _ hser16 hkey16, parseEnvelope_serialize]
  show (if m = [] then none
        else if (ts0 : Int) = 0 then none
        else if simpleHash (m ++ natToString ts0) = [] then none
        else if simpleHash (m ++ natToString ts0) ≠ simpleHash (m ++ intToString (ts0 : Int))
          then none
        else if 86400000 < (now1 : Int) - (ts0 : Int) then none
        else some m) = some m
  rw [if_neg hm]
  rw [if_neg (by omega : ¬ ((ts0 : Int) = 0))]
  rw [if_neg (simpleHash_ne_nil _)]
  rw [if_neg (by rw [intToString_ofNat]; simp)]
  rw [if_neg (by omega : ¬ (86400000 < (now1 : Int) - (ts0 : Int)))]

/-- `decrypt` on a well-formed `NFC_` + base64 payload is exactly the
first success among the four windows tried in order, else the
exhausted-retry error. -/
theorem decrypt_unfold (mk : Str) (now : Nat) (bs : Str) (h : ∀ c ∈ bs, c < 256) :
    decrypt mk now (strNFC ++ base64Encode bs) =
      (([attemptDecrypt mk now bs none,
         attemptDecrypt mk now bs (some (getTimeSeed now - 1)),
         attemptDecrypt mk now bs (some (getTimeSeed now - 2)),
         attemptDecrypt mk now bs (some (getTimeSeed now - 3))].findSome? id).elim
        (Except.error (wrapErr exhaustedMsg)) Except.ok) := by
  unfold decrypt
  rw [if_pos (by rw [show (4 : Nat) = strNFC.length from rfl, List.take_left])]
  rw [show (strNFC ++ base64Encode bs).drop 4 = base64Encode bs from by
    rw [show (4 : Nat) = strNFC.length from rfl, List.drop_left]]
  rw [show atob (base64Encode bs) = some bs from atob_btoa bs h]
  cases h0 : attemptDecrypt mk now bs none with
  | some v => simp [h0, List.findSome?_cons]
  | none =>
    cases h1 : attemptDecrypt mk now bs (some (getTimeSeed now - 1)) with
    | some v => simp [h0, h1, List.findSome?_cons]
    | none =>
      cases h2 : attemptDecrypt mk now bs (some (getTimeSeed now - 2)) with
      | some v => simp [h0, h1, h2, List.findSome?_cons]
      | none =>
        cases h3 : attemptDecrypt mk now bs (some (getTimeSeed now - 3)) with
        | some v => simp [h0, h1, h2, h3, List.findSome?_cons]
        | none => simp [h0, h1, h2, h3, List.findSome?_cons]

theorem generateTimeKey_resolve (mk : Str) (now : Nat) (w : Int)
    (h : jsOr (some w) (getTimeSeed now) = w) :
    generateTimeKey mk now (some w) = simpleHash (mk ++ intToString w) := by
  unfold generateTimeKey
  rw [h]

theorem jsOr_resolve (w d : Int) (h : w ≠ 0 ∨ d = w) : jsOr (some w) d = w := by
  rcases h with h | h
  · exact jsOr_some_ne w d h
  · rw [h, jsOr_some_self]

theorem window_age_bound (now0 now1 : Nat) (k : Nat) (hk3 : k ≤ 3)
    (hk : getTimeSeed now1 = getTimeSeed now0 + (k : Int)) :
    (now1 : Int) - (now0 : Int) ≤ 86400000 := by
  unfold getTimeSeed windowMs at hk
  have hk2 : now1 / 300000 = now0 / 300000 + k := by exact_mod_cast hk
  omega

theorem seed_pos_now (now0 : Nat) (h : 1 ≤ getTimeSeed now0) : 1 ≤ now0 := by
  unfold getTimeSeed windowMs at h
  have h2 : 1 ≤ now0 / 300000 := by exact_mod_cast h
  omega

/-! The claims. -/

/-- The hash specification written from the spec's words (§4.1): fold
`h = 31*h + charCode` with 32-bit signed wraparound, take the absolute
value, render as zero-padded lowercase hex of length 8, with the
empty-string short-circuit to "00000000". -/
def simpleHashSpec (s : Str) : Str :=
  if s = [] then strLit "00000000"
  else padStart8 (natToHex (s.foldl (fun (h : Int) (c : Nat) => toInt32 (31 * h + (c : Int))) 0).natAbs)

/-- Boolean check that every code unit is a lowercase hex digit. -/
def allHexLower (s : Str) : Bool :=
  s.all (fun c => decide ((48 ≤ c ∧ c ≤ 57) ∨ (97 ≤ c ∧ c ≤ 102)))

/-- C6: simpleHash is a pure function of its input that agrees with the
spec's formula (empty string to "00000000", otherwise the 31*h+c rolling
hash with 32-bit signed wraparound, absolute value, zero-padded lowercase
hex), and its output always has exactly 8 lowercase-hex characters. -/
theorem c6_simple_hash_spec (s : Str) :
    simpleHash s = simpleHashSpec s ∧ (simpleHash s).length = 8 ∧
      allHexLower (simpleHash s) = true := by
  refine ⟨?_, simpleHash_length s, ?_⟩
  · unfold simpleHash simpleHashSpec
    split
    · decide
    · have hfun : hashStep = fun (h : Int) (c : Nat) => toInt32 (31 * h + (c : Int)) :=
        funext fun h => funext fun c => hashStep_eq h c
      rw [hfun]
  · rw [allHexLower, List.all_eq_true]
    intro c hc
    rw [decide_eq_true_eq]
    exact simpleHash_chars s c hc

/-- C7: expandKey returns a string of exactly `length` characters for
every seed string and every length; it is a pure function of (seed,
length), reading no clock. -/
theorem c7_expand_key_length (key : Str) (len : Nat) :
    (expandKey key len).length = len :=
  expandKey_length key len

/-- C8: the XOR transform is an involution: transforming twice with the
same key reproduces the input, for all JavaScript strings (lists of code
units below 2^16). -/
theorem c8_xor_involution (data key : Str)
    (hd : ∀ c ∈ data, c < 65536) (hk : ∀ c ∈ key, c < 65536) :
    xorCipher (xorCipher data key) key = data :=
  xorCipher_involution data key hd hk

/-- C8 witness at a concrete data/key pair. -/
theorem c8_xor_witness :
    xorCipher (xorCipher (strLit "data") (strLit "key")) (strLit "key") = strLit "data" :=
  c8_xor_involution (strLit "data") (strLit "key") (by decide) (by decide)

/-- C9 (amended): for every nonzero window id w, generateTimeKey(w)
equals hash(masterKey + w.toString()), independent of the clock; the
claim's formula fails at w = 0 because 0 is falsy in `timeSeed ||
this.getTimeSeed()`. -/
theorem c9_time_key_formula (mk : Str) (now : Nat) (w : Int) (hw : w ≠ 0) :
    generateTimeKey mk now (some w) = simpleHash (mk ++ intToString w) := by
  unfold generateTimeKey
  rw [jsOr_some_ne w _ hw]

/-- C9 witness at window 7. -/
theorem c9_time_key_witness :
    generateTimeKey (strLit "m1") 5 (some 7) = simpleHash (strLit "m1" ++ intToString 7) :=
  c9_time_key_formula (strLit "m1") 5 7 (by decide)

/-- C9 counterexample: at window w = 0 (with the clock at window 1), the
code hashes the current window's id "1", not "0" as the claimed formula
requires. -/
theorem c9_zero_window_counterexample :
    generateTimeKey [] 300000 (some 0) ≠ simpleHash ([] ++ intToString 0) := by
  decide

/-- C10: attemptDecrypt returns null for any envelope whose msg is the
empty string (the `!messageData.msg` falsy check), regardless of checksum
and freshness; in particular decrypt(encrypt("")) fails with the
exhausted-retry error in the same time window (shown at a concrete
engine state). -/
theorem c10_empty_msg_rejected :
    (∀ (mk : Str) (now : Nat) (e : Str) (env : Envelope),
      parseEnvelope (xorCipher e
        (generateTimeKey mk now (some (jsOr none (getTimeSeed now))))) = some env →
      env.msg = [] →
      attemptDecrypt mk now e none = none)
    ∧ (encrypt (strLit "mk10") 950000 [] none).bind (decrypt (strLit "mk10") 950000) =
        .error (wrapErr exhaustedMsg) := by
  constructor
  · intro mk now e env hparse hmsg
    simp only [attemptDecrypt]
    rw [hparse]
    show (if env.msg = [] then none
          else if env.ts = 0 then none
          else if env.checksum = [] then none
          else if env.checksum ≠ simpleHash (env.msg ++ intToString env.ts) then none
          else if 86400000 < ((now : Nat) : Int) - env.ts then none
          else some env.msg) = none
    rw [if_pos hmsg]
  · decide

/-- C10 witness: a concrete encrypted envelope with empty msg is
rejected by attemptDecrypt. -/
theorem c10_witness :
    attemptDecrypt (strLit "w10") 700000
      (xorCipher (serializeEnvelope ⟨[], 7, 2, strLit "00000000"⟩)
        (generateTimeKey (strLit "w10") 700000 (some (jsOr none (getTimeSeed 700000)))))
      none = none :=
  c10_empty_msg_rejected.1 (strLit "w10") 700000 _ ⟨[], 7, 2, strLit "00000000"⟩
    (by decide) rfl

/-- C3 (amended): decrypt("not-nfc-data") fails fast with the format
error before any decryption attempt, but decrypt("NFC_") passes the
prefix check (atob("") succeeds on the empty remainder), runs all four
window attempts, and fails with the exhausted-retry error instead of a
format error. -/
theorem c3_format_rejection (mk : Str) (now : Nat) :
    decrypt mk now (strLit "not-nfc-data") = .error (wrapErr fmtErrMsg) ∧
    decrypt mk now (strLit "NFC_") = .error (wrapErr exhaustedMsg) := by
  constructor
  · unfold decrypt
    rw [if_neg (by decide)]
  · have hatt : ∀ ts, attemptDecrypt mk now [] ts = none := by
      intro ts
      simp only [attemptDecrypt]
      rw [show xorCipher []
            (generateTimeKey mk now (some (jsOr ts (getTimeSeed now)))) = ([] : Str) from rfl]
      rw [show parseEnvelope ([] : Str) = none from by decide]
    unfold decrypt
    rw [if_pos (by decide : (strLit "NFC_").take 4 = strNFC)]
    rw [show (strLit "NFC_").drop 4 = ([] : Str) from by decide]
    rw [show atob ([] : Str) = some [] from rfl]
    simp [hatt]

/-- C3 counterexample: at a concrete engine state, decrypt("NFC_")
reports the exhausted-retry error, not the "Invalid encrypted format"
error the claim demands. -/
theorem c3_short_payload_counterexample :
    decrypt (strLit "k1") 1000000 (strLit "NFC_") = .error (wrapErr exhaustedMsg) ∧
    decrypt (strLit "k1") 1000000 (strLit "NFC_") ≠ .error (wrapErr fmtErrMsg) := by
  constructor
  · decide
  · decide

/-- C4 (amended): encrypt succeeds with the "NFC_" + base64 payload for
every message whose code units are all at most 255; for such messages the
payload is the base64 of the XOR-transformed serialized envelope. (It is
not true that encrypt fails only on unserializable input: any message
with a code unit above 255 serializes fine but makes btoa throw.) -/
theorem c4_encrypt_latin1 (mk : Str) (now : Nat) (m : Str)
    (hc : ∀ c ∈ m, c < 256) :
    encrypt mk now m none =
      .ok (strNFC ++ base64Encode (xorCipher
        (serializeEnvelope ⟨m, (now : Int), getTimeSeed now,
          simpleHash (m ++ natToString now)⟩)
        (generateTimeKey mk now none))) := by
  have hkey2 : generateTimeKey mk now (some (getTimeSeed now)) = generateTimeKey mk now none := by
    unfold generateTimeKey
    rw [jsOr_some_self, jsOr_none]
  rw [encrypt_ok mk now m none hc, jsOr_none, hkey2]

/-- C4 witness at a concrete message. -/
theorem c4_encrypt_witness :
    encrypt (strLit "k3") 650000 (strLit "ok") none =
      .ok (strNFC ++ base64Encode (xorCipher
        (serializeEnvelope ⟨strLit "ok", ((650000 : Nat) : Int), getTimeSeed 650000,
          simpleHash (strLit "ok" ++ natToString 650000)⟩)
        (generateTimeKey (strLit "k3") 650000 none))) :=
  c4_encrypt_latin1 (strLit "k3") 650000 (strLit "ok") (by decide)

/-- C4 counterexample: the one-character message U+2588 (code unit 9608)
serializes fine, yet encrypt fails because btoa rejects the transformed
envelope's out-of-range code unit. -/
theorem c4_nonlatin1_counterexample :
    encrypt (strLit "k2") 777777 [9608] none = .error encFailMsg := by
  decide

/-- C2: the code throws 'Message expired' for a checksum-valid envelope
older than 24 hours, but attemptDecrypt's own blanket catch swallows that
throw and returns null, so decrypt reports the generic exhausted-retry
error instead of an expiry-specific one. Shown at a concrete payload
built with the source's customTimeSeed parameter: encrypted at time 1
with the key of window 288, decrypted at time 86400002 (window 288, age
86400001 ms). -/
theorem c2_expiry_swallowed :
    (encrypt (strLit "deadbeef") 1 (strLit "A") (some 288)).bind
        (decrypt (strLit "deadbeef") 86400002) = .error (wrapErr exhaustedMsg) ∧
    (encrypt (strLit "deadbeef") 1 (strLit "A") (some 288)).bind
        (decrypt (strLit "deadbeef") 86400002) ≠ .error (wrapErr (strLit "Message expired")) := by
  constructor
  · decide
  · decide

/-- C1 (amended): decrypt(encrypt(m)) returns m exactly when both calls
occur within the same 5-minute window, for any fixed device fingerprint,
any positive encryption time, and every non-empty message whose code
units are at most 255. (The claim's unrestricted form fails: the empty
message is falsy and rejected by attemptDecrypt, and a message with a
code unit above 255 makes encrypt itself fail in btoa.) -/
theorem c1_round_trip_same_window (fp : Str) (now0 now1 : Nat) (m : Str)
    (h0 : 0 < now0) (h01 : getTimeSeed now0 = getTimeSeed now1)
    (hm : m ≠ []) (hc : ∀ c ∈ m, c < 256) :
    (encrypt (generateMasterKey fp) now0 m none).bind
      (decrypt (generateMasterKey fp) now1) = .ok m := by
  have hts : 1 ≤ now0 := h0
  have hage : (now1 : Int) - (now0 : Int) ≤ 86400000 :=
    window_age_bound now0 now1 0 (by omega) (by rw [h01]; simp)
  rw [encrypt_ok (generateMasterKey fp) now0 m none hc]
  show decrypt (generateMasterKey fp) now1
      (strNFC ++ base64Encode (xorCipher
        (serializeEnvelope ⟨m, ((now0 : Nat) : Int), jsOr none (getTimeSeed now0),
          simpleHash (m ++ natToString now0)⟩)
        (generateTimeKey (generateMasterKey fp) now0
          (some (jsOr none (getTimeSeed now0)))))) = .ok m
  rw [jsOr_none]
  have hK : generateTimeKey (generateMasterKey fp) now0 (some (getTimeSeed now0)) =
      generateTimeKey (generateMasterKey fp) now1 (some (jsOr none (getTimeSeed now1))) := by
    unfold generateTimeKey
    rw [jsOr_none, jsOr_some_self, jsOr_some_self, h01]
  rw [hK]
  have hbs : ∀ c ∈ xorCipher
      (serializeEnvelope ⟨m, ((now0 : Nat) : Int), getTimeSeed now0,
        simpleHash (m ++ natToString now0)⟩)
      (generateTimeKey (generateMasterKey fp) now1 (some (jsOr none (getTimeSeed now1)))),
      c < 256 :=
    xorCipher_lt256 _ _ (serialize_chars _ hc (simpleHash_lt256 _)) (simpleHash_lt128 _)
  rw [decrypt_unfold _ now1 _ hbs]
  rw [attempt_ok (generateMasterKey fp) now1 m now0 (getTimeSeed now0) none hm hc hts hage]
  simp [List.findSome?_cons]

/-- C1 witness: a concrete same-window round trip returning "hello". -/
theorem c1_round_trip_witness :
    (encrypt (generateMasterKey (strLit "fp1")) 600001 (strLit "hello") none).bind
      (decrypt (generateMasterKey (strLit "fp1")) 600100) = .ok (strLit "hello") :=
  c1_round_trip_same_window (strLit "fp1") 600001 600100 (strLit "hello")
    (by decide) (by decide) (by decide) (by decide)

/-- C1 counterexample: for the empty message the round trip fails with
the exhausted-retry error even though encrypt and decrypt share the same
window, because attemptDecrypt treats the empty msg as falsy. -/
theorem c1_empty_message_counterexample :
    (encrypt (strLit "a1b2c3d4") 1500123 [] none).bind
        (decrypt (strLit "a1b2c3d4") 1500123) = .error (wrapErr exhaustedMsg) ∧
    (encrypt (strLit "a1b2c3d4") 1500123 [] none).bind
        (decrypt (strLit "a1b2c3d4") 1500123) ≠ .ok [] := by
  constructor
  · decide
  · decide

/-- C5 (amended): decrypt on a well-formed payload is exactly the first
success of the four attempts at windows now, now-1, now-2, now-3 in that
order, with the exhausted-retry error when all four fail; and decrypt
succeeds for payloads encrypted up to 3 windows in the past provided the
encryption window id is nonzero. (For a payload encrypted at window 0,
the retried seed 0 is falsy and falls back to the current window, so the
claim's unrestricted skew-tolerance fails.) -/
theorem c5_retry_protocol :
    (∀ (mk : Str) (now : Nat) (bs : Str), (∀ c ∈ bs, c < 256) →
      decrypt mk now (strNFC ++ base64Encode bs) =
        (([attemptDecrypt mk now bs none,
           attemptDecrypt mk now bs (some (getTimeSeed now - 1)),
           attemptDecrypt mk now bs (some (getTimeSeed now - 2)),
           attemptDecrypt mk now bs (some (getTimeSeed now - 3))].findSome? id).elim
          (Except.error (wrapErr exhaustedMsg)) Except.ok))
    ∧ (∀ (fp : Str) (now0 now1 : Nat) (m : Str) (k : Nat),
        k ≤ 3 → 1 ≤ getTimeSeed now0 →
        getTimeSeed now1 = getTimeSeed now0 + (k : Int) →
        m ≠ [] → (∀ c ∈ m, c < 256) →
        ((encrypt (generateMasterKey fp) now0 m none).bind
          (decrypt (generateMasterKey fp) now1)).isOk = true) := by
  constructor
  · intro mk now bs h
    exact decrypt_unfold mk now bs h
  · intro fp now0 now1 m k hk3 hw0 hk hm hc
    have hts : 1 ≤ now0 := seed_pos_now now0 hw0
    have hage := window_age_bound now0 now1 k hk3 hk
    have hw0ne : getTimeSeed now0 ≠ 0 := by omega
    rw [encrypt_ok (generateMasterKey fp) now0 m none hc]
    show (decrypt (generateMasterKey fp) now1
        (strNFC ++ base64Encode (xorCipher
          (serializeEnvelope ⟨m, ((now0 : Nat) : Int), jsOr none (getTimeSeed now0),
            simpleHash (m ++ natToString now0)⟩)
          (generateTimeKey (generateMasterKey fp) now0
            (some (jsOr none (getTimeSeed now0))))))).isOk = true
    rw [jsOr_none]
    rcases k with _ | _ | _ | _ | k
    · -- k = 0: same window
      have h01 : getTimeSeed now0 = getTimeSeed now1 := by
        rw [hk]; simp
      have hK : generateTimeKey (generateMasterKey fp) now0 (some (getTimeSeed now0)) =
          generateTimeKey (generateMasterKey fp) now1
            (some (jsOr none (getTimeSeed now1))) := by
        unfold generateTimeKey
        rw [jsOr_none, jsOr_some_self, jsOr_some_self, h01]
      rw [hK]
      have hbs : ∀ c ∈ xorCipher
          (serializeEnvelope ⟨m, ((now0 : Nat) : Int), getTimeSeed now0,
            simpleHash (m ++ natToString now0)⟩)
          (generateTimeKey (generateMasterKey fp) now1 (some (jsOr none (getTimeSeed now1)))),
          c < 256 :=
        xorCipher_lt256 _ _ (serialize_chars _ hc (simpleHash_lt256 _)) (simpleHash_lt128 _)
      rw [decrypt_unfold _ now1 _ hbs]
      rw [attempt_ok (generateMasterKey fp) now1 m now0 (getTimeSeed now0) none
          hm hc hts hage]
      simp [List.findSome?_cons, Except.isOk, Except.toBool]
    · -- k = 1
      have hsd : getTimeSeed now1 - 1 = getTimeSeed now0 := by
        push_cast at hk
        omega
      have hK : generateTimeKey (generateMasterKey fp) now0 (some (getTimeSeed now0)) =
          generateTimeKey (generateMasterKey fp) now1
            (some (jsOr (some (getTimeSeed now0)) (getTimeSeed now1))) := by
        unfold generateTimeKey
        rw [jsOr_resolve (getTimeSeed now0) (getTimeSeed now1) (Or.inl hw0ne),
            jsOr_resolve (getTimeSeed now0) (getTimeSeed now1) (Or.inl hw0ne),
            jsOr_resolve (getTimeSeed now0) (getTimeSeed now0) (Or.inl hw0ne)]
      rw [hK]
      have hbs : ∀ c ∈ xorCipher
          (serializeEnvelope ⟨m, ((now0 : Nat) : Int), getTimeSeed now0,
            simpleHash (m ++ natToString now0)⟩)
          (generateTimeKey (generateMasterKey fp) now1
            (some (jsOr (some (getTimeSeed now0)) (getTimeSeed now1)))),
          c < 256 :=
        xorCipher_lt256 _ _ (serialize_chars _ hc (simpleHash_lt256 _)) (simpleHash_lt128 _)
      rw [decrypt_unfold _ now1 _ hbs]
      rw [hsd]
      rw [attempt_ok (generateMasterKey fp) now1 m now0 (getTimeSeed now0)
          (some (getTimeSeed now0)) hm hc hts hage]
      cases h0 : attemptDecrypt (generateMasterKey fp) now1
          (xorCipher
            (serializeEnvelope ⟨m, ((now0 : Nat) : Int), getTimeSeed now0,
              simpleHash (m ++ natToString now0)⟩)
            (generateTimeKey (generateMasterKey fp) now1
              (some (jsOr (some (getTimeSeed now0)) (getTimeSeed now1))))) none with
      | some v => simp [h0, List.findSome?_cons, Except.isOk, Except.toBool]
      | none => simp [h0, List.findSome?_cons, Except.isOk, Except.toBool]
    · -- k = 2
      have hsd : getTimeSeed now1 - 2 = getTimeSeed now0 := by
        push_cast at hk
        omega
      have hK : generateTimeKey (generateMasterKey fp) now0 (some (getTimeSeed now0)) =
          generateTimeKey (generateMasterKey fp) now1
            (some (jsOr (some (getTimeSeed now0)) (getTimeSeed now1))) := by
        unfold generateTimeKey
        rw [jsOr_resolve (getTimeSeed now0) (getTimeSeed now1) (Or.inl hw0ne),
            jsOr_resolve (getTimeSeed now0) (getTimeSeed now1) (Or.inl hw0ne),
            jsOr_resolve (getTimeSeed now0) (getTimeSeed now0) (Or.inl hw0ne)]
      rw [hK]
      have hbs : ∀ c ∈ xorCipher
          (serializeEnvelope ⟨m, ((now0 : Nat) : Int), getTimeSeed now0,
            simpleHash (m ++ natToString now0)⟩)
          (generateTimeKey (generateMasterKey fp) now1
            (some (jsOr (some (getTimeSeed now0)) (getTimeSeed now1)))),
          c < 256 :=
        xorCipher_lt256 _ _ (serialize_chars _ hc (simpleHash_lt256 _)) (simpleHash_lt128 _)
      rw [decrypt_unfold _ now1 _ hbs]
      rw [hsd]
      rw [attempt_ok (generateMasterKey fp) now1 m now0 (getTimeSeed now0)
          (some (getTimeSeed now0)) hm hc hts hage]
      cases h0 : attemptDecrypt (generateMasterKey fp) now1
          (xorCipher
            (serializeEnvelope ⟨m, ((now0 : Nat) : Int), getTimeSeed now0,
              simpleHash (m ++ natToString now0)⟩)
            (generateTimeKey (generateMasterKey fp) now1
              (some (jsOr (some (getTimeSeed now0)) (getTimeSeed now1))))) none with
      | some v => simp [h0, List.findSome?_cons, Except.isOk, Except.toBool]
      | none =>
        cases h1 : attemptDecrypt (generateMasterKey fp) now1
            (xorCipher
              (serializeEnvelope ⟨m, ((now0 : Nat) : Int), getTimeSeed now0,
                simpleHash (m ++ natToString now0)⟩)
              (generateTimeKey (generateMasterKey fp) now1
                (some (jsOr (some (getTimeSeed now0)) (getTimeSeed now1)))))
            (some (getTimeSeed now1 - 1)) with
        | some v => simp [h0, h1, List.findSome?_cons, Except.isOk, Except.toBool]
        | none => simp [h0, h1, List.findSome?_cons, Except.isOk, Except.toBool]
    · -- k = 3
      have hsd : getTimeSeed now1 - 3 = getTimeSeed now0 := by
        push_cast at hk
        omega
      have hK : generateTimeKey (generateMasterKey fp) now0 (some (getTimeSeed now0)) =
          generateTimeKey (generateMasterKey fp) now1
            (some (jsOr (some (getTimeSeed now0)) (getTimeSeed now1))) := by
        unfold generateTimeKey
        rw [jsOr_resolve (getTimeSeed now0) (getTimeSeed now1) (Or.inl hw0ne),
            jsOr_resolve (getTimeSeed now0) (getTimeSeed now1) (Or.inl hw0ne),
            jsOr_resolve (getTimeSeed now0) (getTimeSeed now0) (Or.inl hw0ne)]
      rw [hK]
      have hbs : ∀ c ∈ xorCipher
          (serializeEnvelope ⟨m, ((now0 : Nat) : Int), getTimeSeed now0,
            simpleHash (m ++ natToString now0)⟩)
          (generateTimeKey (generateMasterKey fp) now1
            (some (jsOr (some (getTimeSeed now0)) (getTimeSeed now1)))),
          c < 256 :=
        xorCipher_lt256 _ _ (serialize_chars _ hc (simpleHash_lt256 _)) (simpleHash_lt128 _)
      rw [decrypt_unfold _ now1 _ hbs]
      rw [hsd]
      rw [attempt_ok (generateMasterKey fp) now1 m now0 (getTimeSeed now0)
          (some (getTimeSeed now0)) hm hc hts hage]
      cases h0 : attemptDecrypt (generateMasterKey fp) now1
          (xorCipher
            (serializeEnvelope ⟨m, ((now0 : Nat) : Int), getTimeSeed now0,
              simpleHash (m ++ natToString now0)⟩)
            (generateTimeKey (generateMasterKey fp) now1
              (some (jsOr (some (getTimeSeed now0)) (getTimeSeed now1))))) none with
      | some v => simp [h0, List.findSome?_cons, Except.isOk, Except.toBool]
      | none =>
        cases h1 : attemptDecrypt (generateMasterKey fp) now1
            (xorCipher
              (serializeEnvelope ⟨m, ((now0 : Nat) : Int), getTimeSeed now0,
                simpleHash (m ++ natToString now0)⟩)
              (generateTimeKey (generateMasterKey fp) now1
                (some (jsOr (some (getTimeSeed now0)) (getTimeSeed now1)))))
            (some (getTimeSeed now1 - 1)) with
        | some v => simp [h0, h1, List.findSome?_cons, Except.isOk, Except.toBool]
        | none =>
          cases h2 : attemptDecrypt (generateMasterKey fp) now1
              (xorCipher
                (serializeEnvelope ⟨m, ((now0 : Nat) : Int), getTimeSeed now0,
                  simpleHash (m ++ natToString now0)⟩)
                (generateTimeKey (generateMasterKey fp) now1
                  (some (jsOr (some (getTimeSeed now0)) (getTimeSeed now1)))))
              (some (getTimeSeed now1 - 2)) with
          | some v => simp [h0, h1, h2, List.findSome?_cons, Except.isOk, Except.toBool]
          | none => simp [h0, h1, h2, List.findSome?_cons, Except.isOk, Except.toBool]
    · omega

/-- C5 witness: the characterization at a concrete payload, and a
concrete 2-window-old payload that still decrypts. -/
theorem c5_retry_witness :
    decrypt (strLit "mkr") 2000000 (strNFC ++ base64Encode [1, 2, 3]) =
      (([attemptDecrypt (strLit "mkr") 2000000 [1, 2, 3] none,
         attemptDecrypt (strLit "mkr") 2000000 [1, 2, 3] (some (getTimeSeed 2000000 - 1)),
         attemptDecrypt (strLit "mkr") 2000000 [1, 2, 3] (some (getTimeSeed 2000000 - 2)),
         attemptDecrypt (strLit "mkr") 2000000 [1, 2, 3]
           (some (getTimeSeed 2000000 - 3))].findSome? id).elim
        (Except.error (wrapErr exhaustedMsg)) Except.ok) ∧
    ((encrypt (generateMasterKey (strLit "fp5")) 400000 (strLit "B") none).bind
      (decrypt (generateMasterKey (strLit "fp5")) 1000001)).isOk = true :=
  ⟨c5_retry_protocol.1 (strLit "mkr") 2000000 [1, 2, 3] (by decide),
   c5_retry_protocol.2 (strLit "fp5") 400000 1000001 (strLit "B") 2
     (by decide) (by decide) (by decide) (by decide) (by decide)⟩

/-- C5 counterexample: a fresh payload encrypted at window 0 and
decrypted 3 windows later fails with the exhausted-retry error, because
the retried seed 0 is falsy and the correct key is never tried. -/
theorem c5_window_zero_counterexample :
    (encrypt (strLit "w0mk") 100 (strLit "A") none).bind
        (decrypt (strLit "w0mk") 1000000) = .error (wrapErr exhaustedMsg) := by
  decide

end NFC
